import Mathlib

/-!
Shallow embedding of the unicreds credential store (Go).

The DynamoDB table is modelled as a pure value: a list of stored
`Credential` records.  Go strings are arbitrary byte sequences, so secret
payloads, ciphertexts, keys and macs are modelled as `List Nat` byte
lists; record names and version strings stay `String` because the store
orders its string sort key byte-wise, which we model with an explicit
byte-wise comparison over the UTF-8 code points.

The encryption / integrity / key-wrapping helpers (`Encrypt`, `Decrypt`,
`ComputeHmac256`, `GenerateDataKey`, `DecryptDataKey`) and the base64
codec live in repository files that are not part of the given sources;
they are modelled from the spec, as documented on each definition.
-/

namespace Unicreds

/-- Byte sequences (Go `[]byte` and Go strings used as raw bytes). -/
abbrev Bytes := List Nat

/-- Error kinds surfaced by the store.  `SecretNotFound`,
`HmacValidationFailed` and `Timeout` are the package's own sentinel
errors; `ConditionalCheckFailed` is DynamoDB's conditional-write failure
(the spec's DuplicateVersion kind); `AccessDenied` and
`InvalidCiphertext` are the key-management service's failures;
`Base64Corrupt` is a base64 decode failure; `ParseIntError` is a
`strconv.Atoi` failure. -/
inductive Err
  | SecretNotFound
  | HmacValidationFailed
  | Timeout
  | ConditionalCheckFailed
  | AccessDenied
  | InvalidCiphertext
  | Base64Corrupt
  | ParseIntError
deriving DecidableEq

/-- Matches Go's `awsErr.Code() == "AccessDeniedException"` test in
`GetAllSecrets`: only the key-management service's access-denied failure
satisfies it (the package's sentinel errors are not AWS errors). -/
def Err.isAccessDenied : Err → Bool
  | .AccessDenied => true
  | _ => false

/-- The persisted record (Go struct `Credential`).  `Key`, `Contents`
and `Hmac` are Go strings holding raw bytes, modelled as byte lists. -/
structure Credential where
  Name : String
  Version : String
  Key : Bytes
  Contents : Bytes
  Hmac : Bytes
  CreatedAt : Int
deriving DecidableEq

/-- Go struct `DecryptedCredential`: the stored record plus the
transient plaintext. -/
structure DecryptedCredential where
  cred : Credential
  Secret : Bytes
deriving DecidableEq

/-- Default KMS key alias (`DefaultKmsKey`). -/
def DefaultKmsKey : String := "alias/credstash"

/-! ### External collaborators, modelled from the spec -/

/-- Modelled from the spec: CipherEngine keystream byte `i` for a
32-byte cipher key (counter-mode style stream cipher, spec 4.2). -/
def ksByte (key : Bytes) (i : Nat) : Nat := key.getD (i % 32) 0

/-- Modelled from the spec: CipherEngine `Transform` from stream
position `i` — XOR of the data with the keystream, so that encryption
and decryption are the identical operation (spec 4.2). -/
def transformFrom (key : Bytes) : Nat → Bytes → Bytes
  | _, [] => []
  | i, b :: bs => (b ^^^ ksByte key i) :: transformFrom key (i + 1) bs

/-- Modelled from the spec: `Encrypt` (missing crypto source file) is
the stream-cipher transform from position 0. -/
def Encrypt (key : Bytes) (data : Bytes) : Bytes := transformFrom key 0 data

/-- Modelled from the spec: `Decrypt` is the same transform (spec 4.2:
encryption and decryption are the identical operation). -/
def Decrypt (key : Bytes) (data : Bytes) : Bytes := transformFrom key 0 data

/-- Modelled from the spec: IntegrityEngine `Mac(message, key)`
(`ComputeHmac256` in the missing crypto source file), idealised as a
collision-free keyed tag: for a fixed key, distinct messages give
distinct tags, which models HMAC's collision resistance (spec 4.3). -/
def ComputeHmac256 (message key : Bytes) : Bytes := message ++ key

/-- Modelled from the spec: the standard library base64 codec (an
external collaborator): an injective encoding whose decoder can fail on
corrupt input and satisfies `b64decode (b64encode x) = ok x`. -/
def b64encode (bs : Bytes) : Bytes := 2 :: bs

/-- Fallible base64 decoding; inverse of `b64encode` on its range. -/
def b64decode : Bytes → Except Err Bytes
  | 2 :: bs => .ok bs
  | _ => .error .Base64Corrupt

/-- A generated data key: plaintext halves plus the wrapped blob
(spec 4.1). -/
structure DataKey where
  Plaintext : Bytes
  CiphertextBlob : Bytes

/-- Modelled from the spec: the key-management service's wrapping of a
data key (injective, inverted by `DecryptDataKey`). -/
def wrapKey (pk : Bytes) : Bytes := 0 :: pk

/-- Modelled from the spec: `GenerateDataKey(keyIdentifier, 64)` returns
a 64-byte plaintext data key together with its wrapped form
(spec 4.1). -/
def GenerateDataKey (_keyId : String) (n : Nat) : DataKey :=
  { Plaintext := List.replicate n 5, CiphertextBlob := wrapKey (List.replicate n 5) }

/-- Modelled from the spec: `UnwrapDataKey` / `DecryptDataKey` — unwraps
a wrapped data key; per-record failures from the service are either an
access-denied error or some other service failure (spec 4.1, 4.5). -/
def DecryptDataKey : Bytes → Except Err Bytes
  | 0 :: pk => .ok pk
  | 1 :: _ => .error .AccessDenied
  | _ => .error .InvalidCiphertext

/-! ### Ordering helpers -/

/-- Byte-wise lexicographic strict order, the native ordering DynamoDB
uses for a string sort key. -/
def bytesLt : List Nat → List Nat → Bool
  | [], [] => false
  | [], _ :: _ => true
  | _ :: _, [] => false
  | a :: as, b :: bs => if a < b then true else if b < a then false else bytesLt as bs

/-- UTF-8 code points of a string (all stored names/versions are
ASCII, so this matches DynamoDB's byte order). -/
def strBytes (s : String) : List Nat := s.data.map Char.toNat

/-- Lexical (store-native) strict order on strings. -/
def strLt (a b : String) : Bool := bytesLt (strBytes a) (strBytes b)

/-- Insert into a sorted list: `a` goes before the first element `b`
with `le a b`.  Models one step of a comparison sort. -/
def insertBy (le : Credential → Credential → Bool) (a : Credential) :
    List Credential → List Credential
  | [] => [a]
  | b :: bs => if le a b then a :: b :: bs else b :: insertBy le a bs

/-- Comparison sort (insertion sort) used to model both `sort.Sort` and
the store's key ordering; any correct comparison sort models them. -/
def sortBy (le : Credential → Credential → Bool) (l : List Credential) : List Credential :=
  l.foldr (insertBy le) []

/-- Go `strconv.Atoi`: optional sign followed by at least one digit. -/
def digitsVal? (cs : List Char) : Option Nat :=
  cs.foldl
    (fun acc c =>
      match acc with
      | some n => if c.isDigit then some (n * 10 + (c.toNat - 48)) else none
      | none => none)
    (some 0)

/-- Go `strconv.Atoi`, returning `none` on a malformed number. -/
def atoi? (s : String) : Option Int :=
  match s.data with
  | [] => none
  | '-' :: rest =>
    if rest = [] then none else (digitsVal? rest).map (fun n => -(n : Int))
  | '+' :: rest =>
    if rest = [] then none else (digitsVal? rest).map (fun n => (n : Int))
  | l => (digitsVal? l).map (fun n => (n : Int))

/-- The integer a Go `strconv.Atoi` call yields when its error is
ignored (`aiv, _ := strconv.Atoi(...)`): 0 on a malformed number. -/
def atoiD (s : String) : Int := (atoi? s).getD 0

/-- `ByVersion.Less` (sort ascending by the integer-parsed version,
parse failures counting as 0). -/
def byVersionLE (a b : Credential) : Bool := decide (atoiD a.Version ≤ atoiD b.Version)

/-- `ByName.Less` (sort ascending by name). -/
def byNameLE (a b : Credential) : Bool := !(strLt b.Name a.Name)

/-- Descending store-native (lexical) order on the `version` sort key,
as produced by a DynamoDB query with `ScanIndexForward: false`. -/
def versionDescLE (a b : Credential) : Bool := !(strLt a.Version b.Version)

/-! ### Store operations -/

/-- DynamoDB query `#N = :name`, `ScanIndexForward: false`: every record
of the name, in descending lexical order of the `version` sort key. -/
def queryDesc (store : List Credential) (name : String) : List Credential :=
  sortBy versionDescLE (store.filter (fun c => c.Name == name))

/-- `decryptCredential`: base64-decode the wrapped key, unwrap it with
the key-management service, split it into cipher and mac halves,
base64-decode the contents, verify the tag, and only then decrypt. -/
def decryptCredential (cred : Credential) : Except Err DecryptedCredential :=
  match b64decode cred.Key with
  | .error e => .error e
  | .ok wrappedKey =>
    match DecryptDataKey wrappedKey with
    | .error e => .error e
    | .ok pk =>
      let dataKey := pk.take 32
      let hmacKey := pk.drop 32
      match b64decode cred.Contents with
      | .error e => .error e
      | .ok contents =>
        if ComputeHmac256 contents hmacKey = cred.Hmac then
          .ok { cred := cred, Secret := Decrypt dataKey contents }
        else .error .HmacValidationFailed

/-- `GetSecret`: with a nonempty version, an exact `(name, version)`
query; otherwise a query on the name alone, descending, `Limit 1`, so
the store hands back the record with the lexically greatest version.
Empty result is `SecretNotFound`; a found record is decrypted. -/
def GetSecret (store : List Credential) (name version : String) :
    Except Err DecryptedCredential :=
  let items :=
    if 0 < version.length then
      store.filter (fun c => c.Name == name && c.Version == version)
    else
      store.filter (fun c => c.Name == name)
  match (sortBy versionDescLE items).take 1 with
  | [] => .error .SecretNotFound
  | c :: _ => decryptCredential c

/-- `GetHighestVersion`: descending query on the name, `Limit 1` — the
lexically greatest stored version string, or `SecretNotFound`. -/
def GetHighestVersion (store : List Credential) (name : String) : Except Err String :=
  match queryDesc store name with
  | [] => .error .SecretNotFound
  | c :: _ => .ok c.Version

/-- Replace-or-append on an association list; models one `names[k] = v`
assignment of `filterLatest`'s Go map. -/
def insertAssoc (m : List (String × Credential)) (k : String) (v : Credential) :
    List (String × Credential) :=
  match m with
  | [] => [(k, v)]
  | (k', v') :: rest =>
    if k' == k then (k', v) :: rest else (k', v') :: insertAssoc rest k v

/-- `filterLatest`: sort ascending by integer-parsed version, keep the
last record seen per name (the numeric maximum), and sort the surviving
records by version again. -/
def filterLatest (creds : List Credential) : List Credential :=
  let sorted := sortBy byVersionLE creds
  let names := sorted.foldl (fun m c => insertAssoc m c.Name c) []
  sortBy byVersionLE (names.map (fun p => p.2))

/-- The metadata-only scan of `ListSecrets` (projection on `name`,
`version`, `created_at`; the unprojected string attributes decode to
their zero values). -/
def scanMeta (store : List Credential) : List Credential :=
  store.map (fun c => { c with Key := [], Contents := [], Hmac := [] })

/-- `ListSecrets`: metadata scan, per-name latest collapse unless
`allVersions`, result sorted by name. -/
def ListSecrets (store : List Credential) (allVersions : Bool) :
    Except Err (List Credential) :=
  let creds := scanMeta store
  let creds := if allVersions then creds else filterLatest creds
  .ok (sortBy byNameLE creds)

/-- The record list that `GetAllSecrets` feeds to its decryption loop:
full scan, per-name latest collapse unless `allVersions`, sorted by
name. -/
def processedCreds (store : List Credential) (allVersions : Bool) : List Credential :=
  sortBy byNameLE (if allVersions then store else filterLatest store)

/-- The decryption loop of `GetAllSecrets`, exactly as the Go code has
it: a record that decrypts is appended; a record whose decryption fails
with the key-management access-denied error is skipped; a record whose
decryption fails with any other error falls through the error check and
appends the nil `dcred` pointer (modelled as `none`). -/
def decryptLoop : List Credential → List (Option DecryptedCredential)
  | [] => []
  | c :: rest =>
    match decryptCredential c with
    | .ok d => some d :: decryptLoop rest
    | .error e =>
      if e.isAccessDenied then decryptLoop rest else none :: decryptLoop rest

/-- `GetAllSecrets`: full scan, optional latest collapse, name sort,
then the decryption loop; the loop itself never aborts. -/
def GetAllSecrets (store : List Credential) (allVersions : Bool) :
    Except Err (List (Option DecryptedCredential)) :=
  .ok (decryptLoop (processedCreds store allVersions))

/-- The record `PutSecret` assembles: alias defaulting, envelope
encryption of the secret, tag over the ciphertext with the mac half of
the data key, base64-encoded wrapped key and ciphertext. -/
def mkStoredCred (keyAlias name : String) (secret : Bytes) (version : String)
    (now : Int) : Credential :=
  let kmsKey := if keyAlias = "" then DefaultKmsKey else keyAlias
  let dk := GenerateDataKey kmsKey 64
  let dataKey := dk.Plaintext.take 32
  let hmacKey := dk.Plaintext.drop 32
  let ctext := Encrypt dataKey secret
  { Name := name
    Version := version
    Key := b64encode dk.CiphertextBlob
    Contents := b64encode ctext
    Hmac := ComputeHmac256 ctext hmacKey
    CreatedAt := now }

/-- `PutSecret`: an empty version becomes `"1"`; the assembled record is
written with the DynamoDB condition `attribute_not_exists(name)`, which
is evaluated against the item with the same `(name, version)` primary
key and therefore fails (leaving the store unchanged) exactly when that
key already exists. -/
def PutSecret (store : List Credential) (keyAlias name : String) (secret : Bytes)
    (version : String) (now : Int) : Except Err Unit × List Credential :=
  let version := if version = "" then "1" else version
  let cred := mkStoredCred keyAlias name secret version now
  if store.any (fun c => c.Name == name && c.Version == version) then
    (.error .ConditionalCheckFailed, store)
  else
    (.ok (), store ++ [cred])

/-- One pass of `DeleteSecret`'s loop: delete each queried
`(name, version)` pair from the store. -/
def delFold (items : List Credential) (store : List Credential) : List Credential :=
  items.foldl
    (fun s c => s.filter (fun d => !(d.Name == c.Name && d.Version == c.Version)))
    store

/-- `DeleteSecret`: query every version of the name (descending), then
delete each `(name, version)` pair individually. -/
def DeleteSecret (store : List Credential) (name : String) :
    Except Err (List Credential) :=
  .ok (delFold (queryDesc store name) store)

/-- `ResolveVersion`: a nonzero explicit version is rendered as decimal
text; otherwise the highest stored version (as `GetHighestVersion`
reports it) is parsed, incremented and rendered, with `"1"` when the
name has no versions. -/
def ResolveVersion (store : List Credential) (name : String) (version : Int) :
    Except Err String :=
  if version ≠ 0 then .ok (toString version)
  else
    match GetHighestVersion store name with
    | .error e => if e = .SecretNotFound then .ok "1" else .error e
    | .ok ver =>
      match atoi? ver with
      | none => .error .ParseIntError
      | some v => .ok (toString (v + 1))

/-- `tableCreateTimeout / ticker interval`: the number of 1-second polls
that fit in the 30-second table-creation timeout. -/
def tableCreateTimeoutTicks : Nat := 30

/-- The poll loop of `waitForTable` in discrete time: at each tick the
describe-status operation runs; a service error propagates, status
`"ACTIVE"` succeeds, and exhausting the tick budget is the timeout
branch of the channel race. -/
def waitLoop (poll : Nat → Except Err String) : Nat → Nat → Except Err Unit
  | _, 0 => .error .Timeout
  | t, fuel + 1 =>
    match poll t with
    | .error e => .error e
    | .ok s => if s = "ACTIVE" then .ok () else waitLoop poll (t + 1) fuel

/-- `waitForTable`: poll once per time unit until active or timeout. -/
def waitForTable (poll : Nat → Except Err String) : Except Err Unit :=
  waitLoop poll 0 tableCreateTimeoutTicks

/-- `Setup`: the create-table call's outcome (an external service
response, passed as a value), then `waitForTable`. -/
def Setup (createRes : Except Err Unit) (poll : Nat → Except Err String) :
    Except Err Unit :=
  match createRes with
  | .error e => .error e
  | .ok _ => waitForTable poll

/-! ### Helper lemmas -/

/-- The stream transform is an involution: decrypting an encryption
returns the original bytes. -/
theorem transformFrom_transformFrom (key : Bytes) :
    ∀ (i : Nat) (bs : Bytes), transformFrom key i (transformFrom key i bs) = bs := by
  intro i bs
  induction bs generalizing i with
  | nil => rfl
  | cons b rest ih => simp [transformFrom, Nat.xor_cancel_right, ih]

/-- Decoding an encoding gives the bytes back. -/
theorem b64decode_b64encode (bs : Bytes) : b64decode (b64encode bs) = .ok bs := rfl

/-- Membership through sorted insertion. -/
theorem mem_insertBy (le : Credential → Credential → Bool) (a x : Credential) :
    ∀ l, x ∈ insertBy le a l ↔ x = a ∨ x ∈ l := by
  intro l
  induction l with
  | nil => simp [insertBy]
  | cons b bs ih =>
    by_cases h : le a b
    · simp [insertBy, h]
    · simp [insertBy, h, ih]
      tauto

/-- Sorting does not change membership. -/
theorem mem_sortBy (le : Credential → Credential → Bool) (x : Credential) :
    ∀ l, x ∈ sortBy le l ↔ x ∈ l := by
  intro l
  induction l with
  | nil => simp [sortBy]
  | cons b bs ih =>
    simp only [sortBy, List.foldr] at ih ⊢
    rw [mem_insertBy, ih]
    simp

/-- A record surviving the deletion loop was in the store and matches no
queried `(name, version)` pair. -/
theorem mem_delFold :
    ∀ (items s : List Credential) (d : Credential), d ∈ delFold items s →
      d ∈ s ∧ ∀ c ∈ items, (d.Name == c.Name && d.Version == c.Version) = false := by
  intro items
  induction items with
  | nil =>
    intro s d h
    exact ⟨h, by simp⟩
  | cons c cs ih =>
    intro s d h
    obtain ⟨hmem, hall⟩ :=
      ih (s.filter (fun x => !(x.Name == c.Name && x.Version == c.Version))) d h
    rw [List.mem_filter] at hmem
    refine ⟨hmem.1, ?_⟩
    intro c' hc'
    rcases List.mem_cons.mp hc' with rfl | hcs
    · have h2 := hmem.2
      simp at h2 ⊢
      tauto
    · exact hall c' hcs

/-- A record of the loop input that fails to decrypt with anything other
than the access-denied error puts a `none` into the loop output. -/
theorem none_mem_decryptLoop :
    ∀ (l : List Credential) (c : Credential) (e : Err), c ∈ l →
      decryptCredential c = .error e → e.isAccessDenied = false →
      none ∈ decryptLoop l := by
  intro l
  induction l with
  | nil => simp
  | cons d rest ih =>
    intro c e hc he hd
    rcases List.mem_cons.mp hc with rfl | hmem
    · simp [decryptLoop, he, hd]
    · have htail := ih c e hmem he hd
      cases hdc : decryptCredential d with
      | ok v => simp [decryptLoop, hdc, htail]
      | error e' =>
        by_cases hden : e'.isAccessDenied
        · simpa [decryptLoop, hdc, hden] using htail
        · simp [decryptLoop, hdc, hden, htail]

/-- Setting a position of a list to a fresh value is read back at that
position. -/
theorem getD_set_self :
    ∀ (l : Bytes) (i b : Nat), i < l.length → (l.set i b).getD i 0 = b := by
  intro l
  induction l with
  | nil => intro i b h; simp at h
  | cons a as ih =>
    intro i b h
    cases i with
    | zero => rfl
    | succ j => simpa [List.set, List.getD] using ih j b (by simpa using h)

/-- Tags over distinct ciphertexts under one key differ (the idealised
collision-freeness of the tag). -/
theorem computeHmac256_ne {c1 c2 k : Bytes} (h : c1 ≠ c2) :
    ComputeHmac256 c1 k ≠ ComputeHmac256 c2 k :=
  fun he => h (List.append_cancel_right he)

/-- A singleton store hands its record to the decryption pipeline. -/
theorem getSecret_singleton (c : Credential) :
    GetSecret [c] c.Name c.Version = decryptCredential c := by
  unfold GetSecret
  by_cases h : 0 < c.Version.length
  · simp [h, sortBy, insertBy]
  · simp [h, sortBy, insertBy]

/-- The poll loop on an error-free describe operation: success exactly
when some tick inside the budget reads active, timeout otherwise. -/
theorem waitLoop_pure (st : Nat → String) :
    ∀ (fuel t : Nat),
      waitLoop (fun n => .ok (st n)) t fuel =
        (if (List.range fuel).any (fun j => st (t + j) == "ACTIVE") then .ok ()
         else .error .Timeout) := by
  intro fuel
  induction fuel with
  | zero => intro t; simp [waitLoop]
  | succ f ih =>
    intro t
    simp only [waitLoop]
    by_cases h : st t = "ACTIVE"
    · simp [h, List.range_succ_eq_map]
    · rw [ih (t + 1)]
      have hz : (st (t + 0) == "ACTIVE") = false := by simp [h]
      have harg : (fun j => st (t + 1 + j) == "ACTIVE")
          = (fun j => st (t + Nat.succ j) == "ACTIVE") := by
        funext j
        rw [show t + 1 + j = t + Nat.succ j by omega]
      simp only [List.range_succ_eq_map, List.any_cons, List.any_map, Function.comp_def,
        hz, Bool.false_or, h, if_neg]
      rw [harg]
      simp

/-- C9: Setup polls the describe-status operation once per time unit and
succeeds as soon as the status reads active within the fixed budget of
`tableCreateTimeout / interval` polls; if no poll in the budget reads
active, it returns the Timeout error. -/
theorem setup_polls_until_active_or_timeout (st : Nat → String) :
    Setup (.ok ()) (fun t => .ok (st t)) =
      (if (List.range tableCreateTimeoutTicks).any (fun t => st t == "ACTIVE")
       then .ok () else .error .Timeout) := by
  show waitForTable _ = _
  rw [waitForTable, waitLoop_pure]
  simp

/-! ### Concrete stores used as evidence -/

/-- A store holding versions `"1"` through `"11"` of the name `"x"`,
each written through the `PutSecret` pipeline. -/
def store11 : List Credential :=
  (List.range 11).map (fun i => mkStoredCred "" "x" [i] (toString (i + 1)) 0)

/-- A validly written record whose stored mac was replaced, so its
decryption fails with the hmac error (not an AWS access-denied one). -/
def badHmacCred : Credential :=
  { mkStoredCred "" "y" [7] "1" 0 with Hmac := [9, 9] }

/-- A record whose wrapped key the key-management service rejects with a
failure other than access denied. -/
def badKeyCred : Credential :=
  { Name := "w", Version := "1", Key := b64encode [9], Contents := b64encode [],
    Hmac := [], CreatedAt := 0 }

/-! ### Claim theorems -/

/-- C1: the claim demands that, with versions `"1"`..`"11"` stored for
one name, every latest-version selection return version `"11"` (the
numeric maximum).  Evaluating the code on that store: `GetSecret` with
no version relies on the store's lexical descending order and returns
the version-`"9"` record, while `ListSecrets` and `GetAllSecrets` with
`allVersions = false` go through `filterLatest`'s integer parsing and do
return `"11"` — so the claim fails on the `GetSecret` path. -/
theorem latest_selection_lexical_in_getSecret :
    Except.map (fun d => d.cred.Version) (GetSecret store11 "x" "") = .ok "9" ∧
    Except.map (fun l => l.map (fun c => c.Version)) (ListSecrets store11 false)
      = .ok ["11"] ∧
    Except.map (fun l => l.map (fun o => Option.map (fun d => d.cred.Version) o))
      (GetAllSecrets store11 false) = .ok [some "11"] :=
  ⟨rfl, rfl, rfl⟩

/-- C2: the claim says a decryption failure other than access denied
aborts `GetAllSecrets` with that error.  Evaluating the code on a store
whose single record fails with the hmac error: the loop falls through
the access-denied test, appends the nil credential, and returns success
with `[none]` instead of aborting. -/
theorem getAllSecrets_appends_nil_instead_of_aborting :
    decryptCredential badHmacCred = .error .HmacValidationFailed ∧
    Err.HmacValidationFailed.isAccessDenied = false ∧
    GetAllSecrets [badHmacCred] true = .ok [none] :=
  ⟨rfl, rfl, rfl⟩

/-- C3: when a record fed to `GetAllSecrets`'s decryption loop fails to
decrypt with an error that is not the key-management access-denied
error, `GetAllSecrets` still returns success and its result list
contains a nil (`none`) credential entry. -/
theorem getAllSecrets_nil_entry_on_other_errors (store : List Credential)
    (allVersions : Bool) (c : Credential) (e : Err)
    (hc : c ∈ processedCreds store allVersions)
    (he : decryptCredential c = .error e)
    (hd : e.isAccessDenied = false) :
    GetAllSecrets store allVersions = .ok (decryptLoop (processedCreds store allVersions)) ∧
    none ∈ decryptLoop (processedCreds store allVersions) :=
  ⟨rfl, none_mem_decryptLoop _ c e hc he hd⟩

/-- Witness for C3: a store whose single record fails key unwrapping
with a non-access-denied service error. -/
theorem getAllSecrets_nil_entry_on_other_errors_witness :
    GetAllSecrets [badKeyCred] true = .ok (decryptLoop (processedCreds [badKeyCred] true)) ∧
    none ∈ decryptLoop (processedCreds [badKeyCred] true) :=
  getAllSecrets_nil_entry_on_other_errors [badKeyCred] true badKeyCred
    .InvalidCiphertext (by decide) rfl rfl

/-- C7: the claim says an auto-resolved version is the numerically
highest existing version plus one.  Evaluating the code on versions
`"1"`..`"11"`: `GetHighestVersion` takes the store's lexically greatest
string `"9"`, so `ResolveVersion` answers `"10"` where the claim
demands `"12"`. -/
theorem resolveVersion_increments_lexical_highest :
    GetHighestVersion store11 "x" = .ok "9" ∧
    ResolveVersion store11 "x" 0 = .ok "10" :=
  ⟨rfl, rfl⟩

/-- C4: a `PutSecret` whose explicit version already exists for the name
fails the conditional write with the duplicate-version error
(`ConditionalCheckFailed`) and leaves the store — hence the originally
stored record — unchanged. -/
theorem putSecret_duplicate_version (store : List Credential) (keyAlias name : String)
    (secret : Bytes) (version : String) (now : Int) (c : Credential)
    (hver : version ≠ "") (hc : c ∈ store) (hn : c.Name = name) (hv : c.Version = version) :
    PutSecret store keyAlias name secret version now
      = (.error .ConditionalCheckFailed, store) := by
  have hany : store.any (fun x => x.Name == name && x.Version == version) = true :=
    List.any_eq_true.mpr ⟨c, hc, by simp [hn, hv]⟩
  simp [PutSecret, hver, hany]

/-- A one-record store used to witness the duplicate-version claims. -/
def dupStore : List Credential := [mkStoredCred "" "x" [1] "1" 0]

/-- Witness for C4: re-putting `("x", "1")` over a store that already
holds it fails and preserves the store. -/
theorem putSecret_duplicate_version_witness :
    PutSecret dupStore "" "x" [2] "1" 0 = (.error .ConditionalCheckFailed, dupStore) :=
  putSecret_duplicate_version dupStore "" "x" [2] "1" 0
    (mkStoredCred "" "x" [1] "1" 0) (by decide) (by simp [dupStore]) rfl rfl

/-- C10: a `PutSecret` with the empty version writes version `"1"`: the
call is the same as one with explicit version `"1"`; on a store that
already holds `(name, "1")` it fails the conditional write, and when it
succeeds the new store ends with the assembled version-`"1"` record. -/
theorem putSecret_empty_version_writes_one (store : List Credential)
    (keyAlias name : String) (secret : Bytes) (now : Int) :
    PutSecret store keyAlias name secret "" now
        = PutSecret store keyAlias name secret "1" now ∧
    (∀ c ∈ store, c.Name = name → c.Version = "1" →
      (PutSecret store keyAlias name secret "" now).1 = .error .ConditionalCheckFailed) ∧
    (∀ st2, PutSecret store keyAlias name secret "" now = (.ok (), st2) →
      st2 = store ++ [mkStoredCred keyAlias name secret "1" now]) := by
  refine ⟨rfl, ?_, ?_⟩
  · intro c hc hn hv
    have hany : store.any (fun x => x.Name == name && x.Version == "1") = true :=
      List.any_eq_true.mpr ⟨c, hc, by simp [hn, hv]⟩
    simp [PutSecret, hany]
  · intro st2 hput
    by_cases hany : store.any (fun x => x.Name == name && x.Version == "1") = true
    · simp [PutSecret, hany] at hput
    · simp [PutSecret, hany] at hput
      exact hput.symm

/-- A one-record store used to witness the empty-version claim. -/
def w10store : List Credential := [mkStoredCred "" "x" [1] "1" 0]

/-- Witness for C10: with `("x", "1")` already stored, an empty-version
put fails the conditional write. -/
theorem putSecret_empty_version_writes_one_witness :
    (PutSecret w10store "" "x" [2] "" 0).1 = .error .ConditionalCheckFailed :=
  (putSecret_empty_version_writes_one w10store "" "x" [2] 0).2.1
    (mkStoredCred "" "x" [1] "1" 0) (by simp [w10store]) rfl rfl

/-- C8: after a successful `DeleteSecret(name)`, `GetSecret(name, v)`
answers `SecretNotFound` for every version `v`, the empty one
included. -/
theorem delete_then_get_not_found (store : List Credential) (name v : String)
    (store2 : List Credential) (h : DeleteSecret store name = .ok store2) :
    GetSecret store2 name v = .error .SecretNotFound := by
  have hs : store2 = delFold (queryDesc store name) store := by
    simpa [DeleteSecret, eq_comm] using h
  subst hs
  have hname : ∀ d ∈ delFold (queryDesc store name) store, (d.Name == name) = false := by
    intro d hd
    obtain ⟨hmem, hall⟩ := mem_delFold _ _ _ hd
    by_contra hne
    have hbeq : (d.Name == name) = true := by
      cases hb : (d.Name == name) with
      | false => exact absurd hb hne
      | true => rfl
    have hq : d ∈ queryDesc store name := by
      rw [queryDesc, mem_sortBy]
      exact List.mem_filter.mpr ⟨hmem, hbeq⟩
    have := hall d hq
    simp at this
  unfold GetSecret
  by_cases hv : 0 < v.length
  · have hfil : (delFold (queryDesc store name) store).filter
        (fun c => c.Name == name && c.Version == v) = [] := by
      rw [List.filter_eq_nil_iff]
      intro c hc
      simp [hname c hc]
    simp [hv, hfil, sortBy]
  · have hfil : (delFold (queryDesc store name) store).filter
        (fun c => c.Name == name) = [] := by
      rw [List.filter_eq_nil_iff]
      intro c hc
      simp [hname c hc]
    simp [hv, hfil, sortBy]

/-- A one-record store used to witness deletion completeness. -/
def delStore : List Credential := [mkStoredCred "" "x" [1] "1" 0]

/-- Witness for C8: deleting `"x"` empties the store and the stored
version `"1"` then reads back as `SecretNotFound`. -/
theorem delete_then_get_not_found_witness :
    GetSecret [] "x" "1" = .error .SecretNotFound :=
  delete_then_get_not_found delStore "x" "1" [] rfl

/-- The stored name of an assembled record is the put's name. -/
theorem mkStoredCred_Name (keyAlias name : String) (secret : Bytes) (version : String)
    (now : Int) : (mkStoredCred keyAlias name secret version now).Name = name := rfl

/-- C5: for a name not yet in the store, `PutSecret(name, secret)`
followed by `GetSecret(name, "")` on the resulting store succeeds and
returns the original secret bytes exactly. -/
theorem put_then_get_roundtrip (store : List Credential) (keyAlias name : String)
    (secret : Bytes) (now : Int) (h : ∀ c ∈ store, c.Name ≠ name) :
    (PutSecret store keyAlias name secret "" now).1 = .ok () ∧
    Except.map (fun d => d.Secret)
      (GetSecret (PutSecret store keyAlias name secret "" now).2 name "") = .ok secret := by
  have hany : store.any (fun c => c.Name == name && c.Version == "1") = false := by
    simp only [List.any_eq_false]
    intro c hc
    simp [h c hc]
  have hfst : (PutSecret store keyAlias name secret "" now).1 = .ok () := by
    simp [PutSecret, hany]
  have hsnd : (PutSecret store keyAlias name secret "" now).2
      = store ++ [mkStoredCred keyAlias name secret "1" now] := by
    simp [PutSecret, hany]
  refine ⟨hfst, ?_⟩
  rw [hsnd]
  have hfil : store.filter (fun c => c.Name == name) = [] := by
    rw [List.filter_eq_nil_iff]
    intro c hc
    simp [h c hc]
  simp [GetSecret, List.filter_append, hfil, mkStoredCred_Name, sortBy, insertBy,
    decryptCredential, mkStoredCred, GenerateDataKey, wrapKey, Encrypt, Decrypt,
    ComputeHmac256, b64encode, b64decode, DecryptDataKey,
    transformFrom_transformFrom, Except.map]

/-- Witness for C5: the round trip on the empty store with secret bytes
`[1, 2, 3]`. -/
theorem put_then_get_roundtrip_witness :
    (PutSecret [] "" "x" [1, 2, 3] "" 0).1 = .ok () ∧
    Except.map (fun d => d.Secret)
      (GetSecret (PutSecret [] "" "x" [1, 2, 3] "" 0).2 "x" "") = .ok [1, 2, 3] :=
  put_then_get_roundtrip [] "" "x" [1, 2, 3] 0 (by simp)

/-- C6: on a well-formed stored record (decodable key the service
unwraps, base64 contents, tag as written), altering any ciphertext byte
or replacing the stored mac makes `GetSecret` fail with
`HmacValidationFailed` — an error distinct from `SecretNotFound` — and
no plaintext is returned. -/
theorem getSecret_tamper_detection (cred : Credential) (wk pk ctext : Bytes)
    (i b : Nat) (mac2 : Bytes)
    (hk : b64decode cred.Key = .ok wk)
    (hw : DecryptDataKey wk = .ok pk)
    (hc : cred.Contents = b64encode ctext)
    (hm : cred.Hmac = ComputeHmac256 ctext (pk.drop 32))
    (hi : i < ctext.length)
    (hb : b ≠ ctext.getD i 0)
    (hmac2 : mac2 ≠ cred.Hmac) :
    GetSecret [{ cred with Contents := b64encode (ctext.set i b) }] cred.Name cred.Version
      = .error .HmacValidationFailed ∧
    GetSecret [{ cred with Hmac := mac2 }] cred.Name cred.Version
      = .error .HmacValidationFailed ∧
    Err.HmacValidationFailed ≠ Err.SecretNotFound := by
  have hset : ctext.set i b ≠ ctext := by
    intro heq
    have hgd := getD_set_self ctext i b hi
    rw [heq] at hgd
    exact hb hgd.symm
  refine ⟨?_, ?_, by simp⟩
  · have e1' : GetSecret [{ cred with Contents := b64encode (ctext.set i b) }]
        cred.Name cred.Version
        = decryptCredential { cred with Contents := b64encode (ctext.set i b) } :=
      getSecret_singleton { cred with Contents := b64encode (ctext.set i b) }
    rw [e1']
    have hne : ComputeHmac256 (ctext.set i b) (pk.drop 32) ≠ cred.Hmac := by
      rw [hm]
      exact computeHmac256_ne hset
    simp only [decryptCredential, hk, hw, b64decode_b64encode]
    rw [if_neg hne]
  · have e2' : GetSecret [{ cred with Hmac := mac2 }] cred.Name cred.Version
        = decryptCredential { cred with Hmac := mac2 } :=
      getSecret_singleton { cred with Hmac := mac2 }
    rw [e2']
    have hne : ComputeHmac256 ctext (pk.drop 32) ≠ mac2 := by
      rw [← hm]
      exact fun he => hmac2 he.symm
    simp only [decryptCredential, hk, hw, hc, b64decode_b64encode]
    rw [if_neg hne]

/-- The plaintext data key of the witness record. -/
def pk6 : Bytes := List.replicate 64 5

/-- The ciphertext of the witness record. -/
def ctext6 : Bytes := Encrypt (pk6.take 32) [3, 4]

/-- A well-formed stored record used to witness tamper detection. -/
def cred6 : Credential := mkStoredCred "" "t" [3, 4] "1" 0

/-- Witness for C6: flipping ciphertext byte 0 of the stored record, or
blanking its mac, turns the read into `HmacValidationFailed`. -/
theorem getSecret_tamper_detection_witness :
    GetSecret [{ cred6 with Contents := b64encode (ctext6.set 0 0) }]
      cred6.Name cred6.Version = .error .HmacValidationFailed ∧
    GetSecret [{ cred6 with Hmac := [] }] cred6.Name cred6.Version
      = .error .HmacValidationFailed ∧
    Err.HmacValidationFailed ≠ Err.SecretNotFound :=
  getSecret_tamper_detection cred6 (wrapKey pk6) pk6 ctext6 0 0 []
    rfl rfl rfl rfl (by decide) (by decide) (by decide)

end Unicreds
